import Mathlib

/-!
Verification of `muduo/base/Singleton.h`.

A sequential model of `muduo::Singleton<T>`: the two static members `ponce_` and
`value_` of every instantiation, the process-wide list of exit handlers, and the
heap of objects created by `new T()`.

The template parameter `T` is a `TypeId`; `Singleton<T>::f` becomes `Singleton.f T`.
Pointers are `Option Addr`, with `none` for `NULL`. Calls are executed one after
another; a call that ends by an exception or a failed assertion is recorded with
that outcome, and the run goes on from the state it left.
-/

namespace muduo

/-- Identity of a C++ type used as the template argument `T`. -/
abbrev TypeId := Nat

/-- Heap addresses. -/
abbrev Addr := Nat

/-- The values of a `pthread_once_t` control as seen between calls:
`PTHREAD_ONCE_INIT` until the first `pthread_once` on it, `spent` afterwards. -/
inductive pthread_once_t where
  | PTHREAD_ONCE_INIT
  | spent
  deriving DecidableEq

/-- Functions that can be handed to `::atexit`: the only ones this header registers
are the instantiations of `Singleton<T>::destroy`. -/
inductive ExitFn where
  | destroy (T : TypeId)
  deriving DecidableEq

/-- What the program is instantiated with: for every type, the compile-time constant
`detail::has_no_destroy<T>::value`, and whether the `k`-th evaluation of `new T()`
(counted from 0) completes normally (`true`) or leaves by an exception (`false`). -/
structure Types where
  has_no_destroy : TypeId → Bool
  ctor : TypeId → Nat → Bool

/-- The state of the process, as far as this header can see or change it. -/
structure Process where
  /-- The static member `Singleton<T>::ponce_`, one per instantiation. -/
  ponce_ : TypeId → pthread_once_t
  /-- The static member `Singleton<T>::value_`, one per instantiation. -/
  value_ : TypeId → Option Addr
  /-- Functions registered with `::atexit`, the most recently registered first. -/
  handlers : List ExitFn
  /-- Objects of each type that have been constructed and not deleted. -/
  live : TypeId → List Addr
  /-- The address the next allocation returns. -/
  next : Addr
  /-- How many times `new T()` has been evaluated. -/
  ctorRuns : TypeId → Nat
  /-- How many times the destructor of `T` has been invoked. -/
  dtorRuns : TypeId → Nat

/-- How a call ends: by returning, or by an exception leaving it. -/
inductive Completion where
  | normal
  | threw
  deriving DecidableEq

/-- How a call of `Singleton<T>::instance()` ends. -/
inductive Outcome where
  /-- Reached `return *value_;` with `value_` pointing at the given address. -/
  | ref (a : Addr)
  /-- The assertion `assert(value_ != NULL)` failed. -/
  | assertFail
  /-- An exception thrown by `new T()` reached the caller. -/
  | thrown
  deriving DecidableEq

/-- Assignment to the static member of one instantiation. -/
def upd {α : Type} (f : TypeId → α) (T : TypeId) (v : α) : TypeId → α :=
  fun U => if U = T then v else f U

/-- The state at program start: the initialisers at the bottom of the header
(`ponce_ = PTHREAD_ONCE_INIT`, `value_ = NULL`), nothing registered, nothing built. -/
def initial : Process where
  ponce_ := fun _ => .PTHREAD_ONCE_INIT
  value_ := fun _ => none
  handlers := []
  live := fun _ => []
  next := 1
  ctorRuns := fun _ => 0
  dtorRuns := fun _ => 0

/-- The expression `new T()`: evaluates the constructor once; on success a fresh
object is live at a fresh address, on failure nothing is allocated and the
exception leaves the expression. -/
def new_T (ts : Types) (T : TypeId) (p : Process) : Option Addr × Process :=
  let p1 := { p with ctorRuns := upd p.ctorRuns T (p.ctorRuns T + 1) }
  if ts.ctor T (p.ctorRuns T) then
    (some p.next, { p1 with live := upd p.live T (p.next :: p.live T), next := p.next + 1 })
  else
    (none, p1)

/-- The expression `delete q` for `q : T*`: nothing for `NULL`, otherwise the
destructor runs and the object is gone. -/
def delete_T (T : TypeId) (q : Option Addr) (p : Process) : Process :=
  match q with
  | none => p
  | some a =>
    { p with dtorRuns := upd p.dtorRuns T (p.dtorRuns T + 1),
             live := upd p.live T ((p.live T).erase a) }

/-- The call `::atexit(f)`: `f` goes in front of the functions registered so far.
The source ignores the return value; registration is taken to succeed. -/
def atexit (f : ExitFn) (p : Process) : Process :=
  { p with handlers := f :: p.handlers }

/-- The function `Singleton<T>::destroy()`:
```
delete value_;
value_ = NULL;
```
-/
def Singleton.destroy (T : TypeId) (p : Process) : Process :=
  let p1 := delete_T T (p.value_ T) p
  { p1 with value_ := upd p1.value_ T none }

/-- The function `Singleton<T>::init()`:
```
value_ = new T();
if (!detail::has_no_destroy<T>::value) {
  ::atexit(destroy);
}
```
An exception from `new T()` leaves `init` before the assignment. -/
def Singleton.init (ts : Types) (T : TypeId) (p : Process) : Completion × Process :=
  match new_T ts T p with
  | (none, p1) => (.threw, p1)
  | (some a, p1) =>
    let p2 := { p1 with value_ := upd p1.value_ T (some a) }
    if !ts.has_no_destroy T then
      (.normal, atexit (.destroy T) p2)
    else
      (.normal, p2)

/-- Modelled from the spec: `pthread_once` is a primitive of the platform, absent from
the sources. The first call on a control runs the routine; every later call on the
same control returns without running it. The control is spent by the first call
whether the routine returns or throws ("the guard is left in a state that does not
retry on later calls"), and an exception of the routine reaches the caller.
The argument `T` stands for `&ponce_`, the control of `Singleton<T>`. -/
def pthread_once (T : TypeId) (init_routine : Process → Completion × Process)
    (p : Process) : Completion × Process :=
  match p.ponce_ T with
  | .PTHREAD_ONCE_INIT => init_routine { p with ponce_ := upd p.ponce_ T .spent }
  | .spent => (.normal, p)

/-- The function `Singleton<T>::instance()`, with assertions enabled:
```
pthread_once(&ponce_, &Singleton::init);
assert(value_ != NULL);
return *value_;
```
-/
def Singleton.instance (ts : Types) (T : TypeId) (p : Process) : Outcome × Process :=
  match pthread_once T (Singleton.init ts T) p with
  | (.threw, p1) => (.thrown, p1)
  | (.normal, p1) =>
    match p1.value_ T with
    | none => (.assertFail, p1)
    | some a => (.ref a, p1)

/-- A run of the program: the calls `Singleton<T>::instance()` made, in order, given
by their template arguments. The result is the log of outcomes and the final state. -/
def run (ts : Types) : List TypeId → Process → List (TypeId × Outcome) × Process
  | [], p => ([], p)
  | T :: rest, p =>
    let r := Singleton.instance ts T p
    let rs := run ts rest r.2
    ((T, r.1) :: rs.1, rs.2)

/-- Calls the given exit handlers, first to last. -/
def runHandlers : List ExitFn → Process → Process
  | [], p => p
  | .destroy T :: fs, p => runHandlers fs (Singleton.destroy T p)

/-- Normal process termination: the registered functions are called in the reverse
order of their registration, each once. -/
def exit (p : Process) : Process :=
  runHandlers p.handlers { p with handlers := [] }

/-- The outcomes, in order, of the calls on `T` in a log. -/
def outcomesOf (T : TypeId) (log : List (TypeId × Outcome)) : List Outcome :=
  (log.filter (fun e => decide (e.1 = T))).map (fun e => e.2)

/-- What `instance()` yields once `pthread_once` no longer runs `init`: the assertion
decides on the stored pointer. -/
def Outcome.ofValue : Option Addr → Outcome
  | none => .assertFail
  | some a => .ref a

/-- Everything in a process state that belongs to the instantiation for `T`. -/
structure View where
  ponce_ : pthread_once_t
  value_ : Option Addr
  /-- How many times `Singleton<T>::destroy` is in the list of exit handlers. -/
  registered : Nat
  objects : List Addr
  ctorRuns : Nat
  dtorRuns : Nat
  deriving DecidableEq

/-- The part of the state that belongs to `Singleton<T>`. -/
def view (T : TypeId) (p : Process) : View where
  ponce_ := p.ponce_ T
  value_ := p.value_ T
  registered := p.handlers.count (.destroy T)
  objects := p.live T
  ctorRuns := p.ctorRuns T
  dtorRuns := p.dtorRuns T

/-- The effect of `Singleton<T>::destroy` on the part of the state that belongs to `T`. -/
def destroyView (v : View) : View :=
  match v.value_ with
  | none => v
  | some a => { v with value_ := none, objects := v.objects.erase a, dtorRuns := v.dtorRuns + 1 }

/-- A program in which no type has the `no_destroy` member and every constructor
succeeds. -/
def plainTypes : Types := ⟨fun _ => false, fun _ _ => true⟩

/-- A program in which every type has the `no_destroy` member and every constructor
succeeds. -/
def keptTypes : Types := ⟨fun _ => true, fun _ _ => true⟩

/-- A program without markers in which every construction of type `3` throws and
every construction of another type succeeds. -/
def mixedTypes : Types := ⟨fun _ => false, fun T _ => decide (T ≠ 3)⟩

/-- A program in which the first construction of every type throws and later ones
would succeed. -/
def failingTypes : Types := ⟨fun _ => false, fun _ k => decide (k ≠ 0)⟩

/-! ## One call -/

theorem instance_spent (ts : Types) (T : TypeId) (p : Process)
    (h : p.ponce_ T = .spent) :
    Singleton.instance ts T p = (Outcome.ofValue (p.value_ T), p) := by
  unfold Singleton.instance pthread_once
  rw [h]
  cases hv : p.value_ T <;> simp [Outcome.ofValue, hv]

theorem instance_first_ok (ts : Types) (T : TypeId) (p : Process)
    (h : p.ponce_ T = .PTHREAD_ONCE_INIT) (hc : ts.ctor T (p.ctorRuns T) = true) :
    Singleton.instance ts T p =
      (.ref p.next,
        { ponce_ := upd p.ponce_ T .spent
          value_ := upd p.value_ T (some p.next)
          handlers := if ts.has_no_destroy T then p.handlers else .destroy T :: p.handlers
          live := upd p.live T (p.next :: p.live T)
          next := p.next + 1
          ctorRuns := upd p.ctorRuns T (p.ctorRuns T + 1)
          dtorRuns := p.dtorRuns }) := by
  unfold Singleton.instance pthread_once Singleton.init new_T atexit
  rw [h]
  cases hn : ts.has_no_destroy T <;> simp [hc, hn, upd]

theorem instance_first_fail (ts : Types) (T : TypeId) (p : Process)
    (h : p.ponce_ T = .PTHREAD_ONCE_INIT) (hc : ts.ctor T (p.ctorRuns T) = false) :
    Singleton.instance ts T p =
      (.thrown,
        { p with ponce_ := upd p.ponce_ T .spent
                 ctorRuns := upd p.ctorRuns T (p.ctorRuns T + 1) }) := by
  unfold Singleton.instance pthread_once Singleton.init new_T
  rw [h]
  simp [hc]

theorem instance_other (ts : Types) {T U : TypeId} (h : U ≠ T) (p : Process) :
    view T (Singleton.instance ts U p).2 = view T p := by
  have h' : T ≠ U := fun e => h e.symm
  cases hp : p.ponce_ U
  · cases hc : ts.ctor U (p.ctorRuns U)
    · rw [instance_first_fail ts U p hp hc]
      simp [view, upd, h']
    · rw [instance_first_ok ts U p hp hc]
      cases hn : ts.has_no_destroy U <;> simp [view, upd, h', h]
  · rw [instance_spent ts U p hp]

/-! ## Runs -/

theorem outcomesOf_cons_same (T : TypeId) (o : Outcome) (log : List (TypeId × Outcome)) :
    outcomesOf T ((T, o) :: log) = o :: outcomesOf T log := by
  simp [outcomesOf]

theorem outcomesOf_cons_other {T U : TypeId} (h : U ≠ T) (o : Outcome)
    (log : List (TypeId × Outcome)) :
    outcomesOf T ((U, o) :: log) = outcomesOf T log := by
  simp [outcomesOf, h]

theorem run_cons (ts : Types) (U : TypeId) (ops : List TypeId) (p : Process) :
    run ts (U :: ops) p =
      ((U, (Singleton.instance ts U p).1) :: (run ts ops (Singleton.instance ts U p).2).1,
        (run ts ops (Singleton.instance ts U p).2).2) := rfl

theorem run_append (ts : Types) (xs ys : List TypeId) (p : Process) :
    run ts (xs ++ ys) p =
      ((run ts xs p).1 ++ (run ts ys (run ts xs p).2).1, (run ts ys (run ts xs p).2).2) := by
  induction xs generalizing p with
  | nil => rfl
  | cons U xs ih => simp [run_cons, ih]

/-- Calls on other types leave the state of `Singleton<T>` alone. -/
theorem run_not_mem (ts : Types) (T : TypeId) (ops : List TypeId) (p : Process)
    (h : T ∉ ops) :
    view T (run ts ops p).2 = view T p ∧ outcomesOf T (run ts ops p).1 = [] := by
  induction ops generalizing p with
  | nil => exact ⟨rfl, rfl⟩
  | cons U ops ih =>
    have hU : U ≠ T := fun e => h (by simp [e])
    have hops : T ∉ ops := fun m => h (List.mem_cons_of_mem _ m)
    obtain ⟨h1, h2⟩ := ih (Singleton.instance ts U p).2 hops
    rw [run_cons]
    exact ⟨h1.trans (instance_other ts hU p), by rw [outcomesOf_cons_other hU]; exact h2⟩

/-- Once the control of `T` is spent, no call changes the state of `Singleton<T>`, and
every call on `T` ends as the stored pointer dictates. -/
theorem run_spent (ts : Types) (T : TypeId) (ops : List TypeId) (p : Process)
    (h : p.ponce_ T = .spent) :
    view T (run ts ops p).2 = view T p ∧
      outcomesOf T (run ts ops p).1
        = List.replicate (ops.count T) (Outcome.ofValue (p.value_ T)) := by
  induction ops generalizing p with
  | nil => exact ⟨rfl, rfl⟩
  | cons U ops ih =>
    rw [run_cons]
    by_cases hU : U = T
    · subst hU
      rw [instance_spent ts U p h]
      obtain ⟨h1, h2⟩ := ih p h
      refine ⟨h1, ?_⟩
      rw [outcomesOf_cons_same, h2, List.count_cons_self, List.replicate_succ]
    · have hv := instance_other ts hU p
      have hp : (Singleton.instance ts U p).2.ponce_ T = .spent := by
        have := congrArg View.ponce_ hv
        simpa [view, h] using this
      have hval : (Singleton.instance ts U p).2.value_ T = p.value_ T := by
        simpa [view] using congrArg View.value_ hv
      obtain ⟨h1, h2⟩ := ih _ hp
      refine ⟨h1.trans hv, ?_⟩
      rw [outcomesOf_cons_other hU, h2, hval, List.count_cons_of_ne (fun e => hU e.symm)]

/-- A run that starts before the first call on `T` and contains one, when the
construction succeeds. -/
theorem run_first_ok (ts : Types) (T : TypeId) (ops : List TypeId) (p : Process)
    (h : p.ponce_ T = .PTHREAD_ONCE_INIT) (hc : ts.ctor T (p.ctorRuns T) = true)
    (hm : T ∈ ops) :
    ∃ a, view T (run ts ops p).2 =
        { ponce_ := .spent
          value_ := some a
          registered := (view T p).registered + (if ts.has_no_destroy T then 0 else 1)
          objects := a :: p.live T
          ctorRuns := p.ctorRuns T + 1
          dtorRuns := p.dtorRuns T } ∧
      outcomesOf T (run ts ops p).1 = List.replicate (ops.count T) (.ref a) := by
  induction ops generalizing p with
  | nil => simp at hm
  | cons U ops ih =>
    rw [run_cons]
    by_cases hU : U = T
    · subst hU
      refine ⟨p.next, ?_⟩
      rw [instance_first_ok ts U p h hc]
      obtain ⟨h1, h2⟩ := run_spent ts U ops
        { ponce_ := upd p.ponce_ U .spent
          value_ := upd p.value_ U (some p.next)
          handlers := if ts.has_no_destroy U then p.handlers else .destroy U :: p.handlers
          live := upd p.live U (p.next :: p.live U)
          next := p.next + 1
          ctorRuns := upd p.ctorRuns U (p.ctorRuns U + 1)
          dtorRuns := p.dtorRuns } (by simp [upd])
      refine ⟨?_, ?_⟩
      · rw [h1]
        cases hn : ts.has_no_destroy U <;> simp [view, upd]
      · rw [outcomesOf_cons_same, h2, List.count_cons_self, List.replicate_succ]
        simp [upd, Outcome.ofValue]
    · have hv := instance_other ts hU p
      have hp : (Singleton.instance ts U p).2.ponce_ T = .PTHREAD_ONCE_INIT := by
        have := congrArg View.ponce_ hv
        simpa [view, h] using this
      have hk : (Singleton.instance ts U p).2.ctorRuns T = p.ctorRuns T := by
        simpa [view] using congrArg View.ctorRuns hv
      have hl : (Singleton.instance ts U p).2.live T = p.live T := by
        simpa [view] using congrArg View.objects hv
      have hd : (Singleton.instance ts U p).2.dtorRuns T = p.dtorRuns T := by
        simpa [view] using congrArg View.dtorRuns hv
      have hm' : T ∈ ops := by
        rcases List.mem_cons.mp hm with e | m
        · exact absurd e.symm hU
        · exact m
      obtain ⟨a, h1, h2⟩ := ih _ hp (by rw [hk]; exact hc) hm'
      refine ⟨a, ?_, ?_⟩
      · rw [h1, hv, hk, hl, hd]
      · rw [outcomesOf_cons_other hU, h2, List.count_cons_of_ne (fun e => hU e.symm)]

/-- A run that starts before the first call on `T` and contains one, when the
construction fails. -/
theorem run_first_fail (ts : Types) (T : TypeId) (ops : List TypeId) (p : Process)
    (h : p.ponce_ T = .PTHREAD_ONCE_INIT) (hc : ts.ctor T (p.ctorRuns T) = false)
    (hv0 : p.value_ T = none) (hm : T ∈ ops) :
    view T (run ts ops p).2 =
        { view T p with ponce_ := .spent, ctorRuns := p.ctorRuns T + 1 } ∧
      outcomesOf T (run ts ops p).1
        = .thrown :: List.replicate (ops.count T - 1) .assertFail := by
  induction ops generalizing p with
  | nil => simp at hm
  | cons U ops ih =>
    rw [run_cons]
    by_cases hU : U = T
    · subst hU
      rw [instance_first_fail ts U p h hc]
      obtain ⟨h1, h2⟩ := run_spent ts U ops
        { p with ponce_ := upd p.ponce_ U .spent
                 ctorRuns := upd p.ctorRuns U (p.ctorRuns U + 1) } (by simp [upd])
      refine ⟨?_, ?_⟩
      · rw [h1]
        simp [view, upd]
      · rw [outcomesOf_cons_same, h2, List.count_cons_self]
        simp [hv0, Outcome.ofValue]
    · have hv := instance_other ts hU p
      have hp : (Singleton.instance ts U p).2.ponce_ T = .PTHREAD_ONCE_INIT := by
        have := congrArg View.ponce_ hv
        simpa [view, h] using this
      have hk : (Singleton.instance ts U p).2.ctorRuns T = p.ctorRuns T := by
        simpa [view] using congrArg View.ctorRuns hv
      have hval : (Singleton.instance ts U p).2.value_ T = none := by
        have := congrArg View.value_ hv
        simpa [view, hv0] using this
      have hm' : T ∈ ops := by
        rcases List.mem_cons.mp hm with e | m
        · exact absurd e.symm hU
        · exact m
      obtain ⟨h1, h2⟩ := ih _ hp (by rw [hk]; exact hc) hval hm'
      refine ⟨?_, ?_⟩
      · rw [h1, hv, hk]
      · rw [outcomesOf_cons_other hU, h2, List.count_cons_of_ne (fun e => hU e.symm)]

/-! ## Process exit -/

theorem destroy_same (T : TypeId) (p : Process) :
    view T (Singleton.destroy T p) = destroyView (view T p) := by
  unfold Singleton.destroy delete_T destroyView
  cases hv : p.value_ T <;> simp [view, upd, hv]

theorem destroy_other {T U : TypeId} (h : U ≠ T) (p : Process) :
    view T (Singleton.destroy U p) = view T p := by
  have h' : T ≠ U := fun e => h e.symm
  unfold Singleton.destroy delete_T
  cases hv : p.value_ U <;> simp [view, upd, h']

theorem destroyView_idem (v : View) : destroyView (destroyView v) = destroyView v := by
  unfold destroyView
  cases hv : v.value_ <;> simp [hv]

theorem runHandlers_view (T : TypeId) (fs : List ExitFn) (p : Process) :
    view T (runHandlers fs p)
      = if ExitFn.destroy T ∈ fs then destroyView (view T p) else view T p := by
  induction fs generalizing p with
  | nil => simp [runHandlers]
  | cons f fs ih =>
    cases f with
    | destroy U =>
      rw [runHandlers, ih]
      by_cases hU : U = T
      · subst hU
        by_cases hm : ExitFn.destroy U ∈ fs
        · simp [hm, destroy_same, destroyView_idem]
        · simp [hm, destroy_same]
      · have hne : ExitFn.destroy T ≠ ExitFn.destroy U := by
          intro e
          injection e with e
          exact hU e.symm
        simp [destroy_other hU, List.mem_cons, hne]

theorem exit_view (T : TypeId) (p : Process) :
    view T (exit p)
      = if ExitFn.destroy T ∈ p.handlers
          then destroyView { view T p with registered := 0 }
          else { view T p with registered := 0 } := by
  unfold exit
  rw [runHandlers_view]
  rfl

/-- After at least one call on `T` from program start, with a constructor that
succeeds: the state of `Singleton<T>` and the outcomes of the calls on `T`. -/
theorem run_initial_ok (ts : Types) (T : TypeId) (ops : List TypeId)
    (hctor : ts.ctor T 0 = true) (hcalls : 1 ≤ ops.count T) :
    ∃ a, view T (run ts ops initial).2 =
        { ponce_ := .spent
          value_ := some a
          registered := if ts.has_no_destroy T then 0 else 1
          objects := [a]
          ctorRuns := 1
          dtorRuns := 0 } ∧
      outcomesOf T (run ts ops initial).1 = List.replicate (ops.count T) (.ref a) := by
  obtain ⟨a, h1, h2⟩ := run_first_ok ts T ops initial rfl hctor (List.one_le_count_iff.mp hcalls)
  refine ⟨a, ?_, h2⟩
  rw [h1]
  simp [view, initial]

/-- After at least one call on `T` from program start, with a constructor that fails
the first time: the state of `Singleton<T>` and the outcomes of the calls on `T`. -/
theorem run_initial_fail (ts : Types) (T : TypeId) (ops : List TypeId)
    (hctor : ts.ctor T 0 = false) (hcalls : 1 ≤ ops.count T) :
    view T (run ts ops initial).2 = ⟨.spent, none, 0, [], 1, 0⟩ ∧
      outcomesOf T (run ts ops initial).1
        = .thrown :: List.replicate (ops.count T - 1) .assertFail := by
  obtain ⟨h1, h2⟩ :=
    run_first_fail ts T ops initial rfl hctor rfl (List.one_le_count_iff.mp hcalls)
  refine ⟨?_, h2⟩
  rw [h1]
  simp [view, initial]

/-- Without a call on `T`, the state of `Singleton<T>` is the one at program start. -/
theorem run_initial_untouched (ts : Types) (T : TypeId) (ops : List TypeId)
    (hcalls : ops.count T = 0) :
    view T (run ts ops initial).2 = ⟨.PTHREAD_ONCE_INIT, none, 0, [], 0, 0⟩ :=
  (run_not_mem ts T ops initial (List.count_eq_zero.mp hcalls)).1

/-! ## The claims -/

/-- C1: for a type `T` whose constructor succeeds, after any run from program start
that contains `n ≥ 1` calls of `Singleton<T>::instance()` (with calls on other types
anywhere in between), `new T()` has been evaluated exactly once and exactly one
object of type `T` exists. As this holds after the first call and after every later
one, the first call constructs and no later call constructs again. -/
theorem C1_constructed_exactly_once (ts : Types) (T : TypeId) (ops : List TypeId)
    (hctor : ts.ctor T 0 = true) (hcalls : 1 ≤ ops.count T) :
    (run ts ops initial).2.ctorRuns T = 1 ∧
      ((run ts ops initial).2.live T).length = 1 := by
  obtain ⟨a, h, _⟩ := run_initial_ok ts T ops hctor hcalls
  have h1 : (run ts ops initial).2.ctorRuns T = 1 := by
    simpa [view] using congrArg View.ctorRuns h
  have h2 : (run ts ops initial).2.live T = [a] := by
    simpa [view] using congrArg View.objects h
  exact ⟨h1, by rw [h2]; rfl⟩

theorem C1_witness :
    plainTypes.ctor 3 0 = true ∧ 1 ≤ [3, 5, 3, 3].count 3 ∧
      (run plainTypes [3, 5, 3, 3] initial).2.ctorRuns 3 = 1 ∧
      ((run plainTypes [3, 5, 3, 3] initial).2.live 3).length = 1 :=
  ⟨by decide, by decide,
    C1_constructed_exactly_once plainTypes 3 [3, 5, 3, 3] (by decide) (by decide)⟩

/-- C2: for a type `T` whose constructor succeeds there is one address `a` such that
every call of `Singleton<T>::instance()` in a run from program start returns a
reference to `a` (so the k-th call returns what the first call returned), and at
every point of the run after the first call on `T` the stored `value_` is `a`. -/
theorem C2_same_reference (ts : Types) (T : TypeId) (ops : List TypeId)
    (hctor : ts.ctor T 0 = true) :
    ∃ a, outcomesOf T (run ts ops initial).1 = List.replicate (ops.count T) (.ref a) ∧
      ∀ pre post, ops = pre ++ post → 1 ≤ pre.count T →
        (run ts pre initial).2.value_ T = some a := by
  by_cases hm : 1 ≤ ops.count T
  · obtain ⟨a, h1, h2⟩ := run_initial_ok ts T ops hctor hm
    refine ⟨a, h2, ?_⟩
    intro pre post hsplit hpre
    obtain ⟨b, hb, _⟩ := run_initial_ok ts T pre hctor hpre
    have hbv : (run ts pre initial).2.value_ T = some b := by
      simpa [view] using congrArg View.value_ hb
    have hbp : (run ts pre initial).2.ponce_ T = .spent := by
      simpa [view] using congrArg View.ponce_ hb
    have hkeep := (run_spent ts T post (run ts pre initial).2 hbp).1
    have hend : (run ts ops initial).2.value_ T = some b := by
      rw [hsplit, run_append]
      have := congrArg View.value_ hkeep
      simpa [view, hbv] using this
    have ha : (run ts ops initial).2.value_ T = some a := by
      simpa [view] using congrArg View.value_ h1
    rw [hbv]
    exact hend.symm.trans ha
  · have h0 : ops.count T = 0 := by omega
    refine ⟨0, ?_, ?_⟩
    · rw [(run_not_mem ts T ops initial (List.count_eq_zero.mp h0)).2, h0]
      rfl
    · intro pre post hsplit hpre
      rw [hsplit, List.count_append] at h0
      omega

theorem C2_witness :
    plainTypes.ctor 3 0 = true ∧ 1 ≤ [5, 3].count 3 ∧
    ∃ a, outcomesOf 3 (run plainTypes [5, 3, 3, 7, 3] initial).1
        = List.replicate ([5, 3, 3, 7, 3].count 3) (.ref a) ∧
      (run plainTypes [5, 3] initial).2.value_ 3 = some a :=
  match C2_same_reference plainTypes 3 [5, 3, 3, 7, 3] (by decide) with
  | ⟨a, h1, h2⟩ => ⟨by decide, by decide, a, h1, h2 [5, 3] [3, 7, 3] rfl (by decide)⟩

/-- C3: for a type `T` whose constructor succeeds, in every state reached from
program start by calls of `instance()` alone, a call of `Singleton<T>::instance()`
passes `assert(value_ != NULL)`: it returns a reference to the address stored in
`value_`, where a constructed object of type `T` lives; it neither fails the
assertion nor throws. -/
theorem C3_assertion_holds (ts : Types) (T : TypeId) (ops : List TypeId)
    (hctor : ts.ctor T 0 = true) :
    ∃ a, (Singleton.instance ts T (run ts ops initial).2).1 = .ref a ∧
      (Singleton.instance ts T (run ts ops initial).2).2.value_ T = some a ∧
      a ∈ (Singleton.instance ts T (run ts ops initial).2).2.live T := by
  by_cases hm : 1 ≤ ops.count T
  · obtain ⟨a, h1, _⟩ := run_initial_ok ts T ops hctor hm
    have hp : (run ts ops initial).2.ponce_ T = .spent := by
      simpa [view] using congrArg View.ponce_ h1
    have hv : (run ts ops initial).2.value_ T = some a := by
      simpa [view] using congrArg View.value_ h1
    have hl : (run ts ops initial).2.live T = [a] := by
      simpa [view] using congrArg View.objects h1
    refine ⟨a, ?_, ?_, ?_⟩
    · rw [instance_spent ts T _ hp, hv]; rfl
    · rw [instance_spent ts T _ hp]; exact hv
    · rw [instance_spent ts T _ hp, hl]; simp
  · have h0 : ops.count T = 0 := by omega
    have h1 := run_initial_untouched ts T ops h0
    have hp : (run ts ops initial).2.ponce_ T = .PTHREAD_ONCE_INIT := by
      simpa [view] using congrArg View.ponce_ h1
    have hk : (run ts ops initial).2.ctorRuns T = 0 := by
      simpa [view] using congrArg View.ctorRuns h1
    refine ⟨(run ts ops initial).2.next, ?_, ?_, ?_⟩
    · rw [instance_first_ok ts T _ hp (by rw [hk]; exact hctor)]
    · rw [instance_first_ok ts T _ hp (by rw [hk]; exact hctor)]
      simp [upd]
    · rw [instance_first_ok ts T _ hp (by rw [hk]; exact hctor)]
      simp [upd]

theorem C3_witness :
    plainTypes.ctor 3 0 = true ∧
    ∃ a, (Singleton.instance plainTypes 3 (run plainTypes [5, 3] initial).2).1 = .ref a ∧
      (Singleton.instance plainTypes 3 (run plainTypes [5, 3] initial).2).2.value_ 3
        = some a ∧
      a ∈ (Singleton.instance plainTypes 3 (run plainTypes [5, 3] initial).2).2.live 3 :=
  ⟨by decide, C3_assertion_holds plainTypes 3 [5, 3] (by decide)⟩

/-- The function `Singleton<T>::destroy` is registered at most once, and only for a
type without the marker. -/
theorem registered_cases (ts : Types) (T : TypeId) (ops : List TypeId) :
    (run ts ops initial).2.handlers.count (.destroy T)
      = if ts.has_no_destroy T = false ∧ ts.ctor T 0 = true ∧ 1 ≤ ops.count T
          then 1 else 0 := by
  by_cases hm : 1 ≤ ops.count T
  · cases hc : ts.ctor T 0
    · have h := (run_initial_fail ts T ops hc hm).1
      have := congrArg View.registered h
      simpa [view] using this
    · obtain ⟨a, h, _⟩ := run_initial_ok ts T ops hc hm
      have := congrArg View.registered h
      cases hn : ts.has_no_destroy T <;> simpa [view, hn, hm] using this
  · have h := run_initial_untouched ts T ops (by omega)
    have := congrArg View.registered h
    simpa [view, hm] using this

/-- C5: for a type `T` with the marker (`has_no_destroy<T>::value` is true), after
any run from program start `destroy` is not among the exit handlers, process exit
invokes the destructor of `T` zero times and leaves `value_` as it was; when `T` was
constructed (at least one call, constructor succeeded), `value_` still points at the
live instance after exit. Conversely, once `init` has constructed the instance,
`destroy` is among the exit handlers exactly when `has_no_destroy<T>::value` is
false. -/
theorem C5_marker_suppresses_destroy (ts : Types) (T : TypeId) (ops : List TypeId) :
    (ts.has_no_destroy T = true →
      ExitFn.destroy T ∉ (run ts ops initial).2.handlers ∧
      (exit (run ts ops initial).2).dtorRuns T = 0 ∧
      (exit (run ts ops initial).2).value_ T = (run ts ops initial).2.value_ T ∧
      (ts.ctor T 0 = true → 1 ≤ ops.count T →
        ∃ a, (exit (run ts ops initial).2).value_ T = some a ∧
          (exit (run ts ops initial).2).live T = [a])) ∧
    (ts.ctor T 0 = true → 1 ≤ ops.count T →
      (ExitFn.destroy T ∈ (run ts ops initial).2.handlers ↔ ts.has_no_destroy T = false)) := by
  have hreg := registered_cases ts T ops
  constructor
  · intro hn
    have hnot : ExitFn.destroy T ∉ (run ts ops initial).2.handlers := by
      apply List.count_eq_zero.mp
      rw [hreg]
      simp [hn]
    have hx := exit_view T (run ts ops initial).2
    rw [if_neg hnot] at hx
    have hval : (exit (run ts ops initial).2).value_ T = (run ts ops initial).2.value_ T := by
      simpa [view] using congrArg View.value_ hx
    have hd : (exit (run ts ops initial).2).dtorRuns T = (run ts ops initial).2.dtorRuns T := by
      simpa [view] using congrArg View.dtorRuns hx
    have hl : (exit (run ts ops initial).2).live T = (run ts ops initial).2.live T := by
      simpa [view] using congrArg View.objects hx
    have hd0 : (run ts ops initial).2.dtorRuns T = 0 := by
      by_cases hm : 1 ≤ ops.count T
      · cases hc : ts.ctor T 0
        · simpa [view] using congrArg View.dtorRuns (run_initial_fail ts T ops hc hm).1
        · obtain ⟨a, h, _⟩ := run_initial_ok ts T ops hc hm
          simpa [view] using congrArg View.dtorRuns h
      · simpa [view] using
          congrArg View.dtorRuns (run_initial_untouched ts T ops (by omega))
    refine ⟨hnot, hd.trans hd0, hval, ?_⟩
    intro hc hm
    obtain ⟨a, h, _⟩ := run_initial_ok ts T ops hc hm
    refine ⟨a, ?_, ?_⟩
    · rw [hval]
      simpa [view] using congrArg View.value_ h
    · rw [hl]
      simpa [view] using congrArg View.objects h
  · intro hc hm
    rw [← List.one_le_count_iff, hreg]
    cases hn : ts.has_no_destroy T <;> simp [hc, hm]

theorem C5_witness :
    keptTypes.has_no_destroy 3 = true ∧ keptTypes.ctor 3 0 = true ∧
    plainTypes.ctor 3 0 = true ∧ 1 ≤ [3, 5, 3].count 3 ∧
    ExitFn.destroy 3 ∉ (run keptTypes [3, 5, 3] initial).2.handlers ∧
    (exit (run keptTypes [3, 5, 3] initial).2).dtorRuns 3 = 0 ∧
    (exit (run keptTypes [3, 5, 3] initial).2).value_ 3
      = (run keptTypes [3, 5, 3] initial).2.value_ 3 ∧
    (∃ a, (exit (run keptTypes [3, 5, 3] initial).2).value_ 3 = some a ∧
      (exit (run keptTypes [3, 5, 3] initial).2).live 3 = [a]) ∧
    (ExitFn.destroy 3 ∈ (run plainTypes [3, 5, 3] initial).2.handlers
      ↔ plainTypes.has_no_destroy 3 = false) :=
  match (C5_marker_suppresses_destroy keptTypes 3 [3, 5, 3]).1 (by decide) with
  | ⟨h1, h2, h3, h4⟩ =>
    ⟨by decide, by decide, by decide, by decide, h1, h2, h3, h4 (by decide) (by decide),
      (C5_marker_suppresses_destroy plainTypes 3 [3, 5, 3]).2 (by decide) (by decide)⟩

/-- C6: for a type `T` without the marker whose constructor succeeds, after any run
from program start with `n ≥ 1` calls of `Singleton<T>::instance()`, `destroy` is in
the list of exit handlers exactly once; `value_` points at the one live object of
type `T`; and process exit invokes the destructor of `T` exactly once, on that
object, and leaves `value_` equal to `NULL`. -/
theorem C6_destroyed_once_at_exit (ts : Types) (T : TypeId) (ops : List TypeId)
    (hmark : ts.has_no_destroy T = false) (hctor : ts.ctor T 0 = true)
    (hcalls : 1 ≤ ops.count T) :
    (run ts ops initial).2.handlers.count (.destroy T) = 1 ∧
      (∃ a, (run ts ops initial).2.value_ T = some a ∧
        (run ts ops initial).2.live T = [a]) ∧
      (run ts ops initial).2.dtorRuns T = 0 ∧
      (exit (run ts ops initial).2).dtorRuns T = 1 ∧
      (exit (run ts ops initial).2).live T = [] ∧
      (exit (run ts ops initial).2).value_ T = none := by
  have hreg := registered_cases ts T ops
  rw [if_pos ⟨hmark, hctor, hcalls⟩] at hreg
  have hmem : ExitFn.destroy T ∈ (run ts ops initial).2.handlers :=
    List.one_le_count_iff.mp (by omega)
  obtain ⟨a, h, _⟩ := run_initial_ok ts T ops hctor hcalls
  have hx := exit_view T (run ts ops initial).2
  rw [if_pos hmem, h] at hx
  refine ⟨hreg, ⟨a, ?_, ?_⟩, ?_, ?_, ?_, ?_⟩
  · simpa [view] using congrArg View.value_ h
  · simpa [view] using congrArg View.objects h
  · simpa [view] using congrArg View.dtorRuns h
  · simpa [view, destroyView] using congrArg View.dtorRuns hx
  · simpa [view, destroyView] using congrArg View.objects hx
  · simpa [view, destroyView] using congrArg View.value_ hx

theorem C6_witness :
    plainTypes.has_no_destroy 3 = false ∧ plainTypes.ctor 3 0 = true ∧
    1 ≤ [3, 5, 3].count 3 ∧
    (run plainTypes [3, 5, 3] initial).2.handlers.count (.destroy 3) = 1 ∧
      (∃ a, (run plainTypes [3, 5, 3] initial).2.value_ 3 = some a ∧
        (run plainTypes [3, 5, 3] initial).2.live 3 = [a]) ∧
      (run plainTypes [3, 5, 3] initial).2.dtorRuns 3 = 0 ∧
      (exit (run plainTypes [3, 5, 3] initial).2).dtorRuns 3 = 1 ∧
      (exit (run plainTypes [3, 5, 3] initial).2).live 3 = [] ∧
      (exit (run plainTypes [3, 5, 3] initial).2).value_ 3 = none :=
  ⟨by decide, by decide, by decide,
    C6_destroyed_once_at_exit plainTypes 3 [3, 5, 3] (by decide) (by decide) (by decide)⟩

/-- C7: for a type `T` without the marker whose constructor succeeded, once process
exit has run `destroy`, a further call of `Singleton<T>::instance()` fails
`assert(value_ != NULL)` and changes nothing; in any further run every call on `T`
fails that assertion (none returns a reference), `new T()` is still
evaluated once in total, no object of type `T` exists and `value_` stays `NULL`. -/
theorem C7_access_after_destroy (ts : Types) (T : TypeId) (ops later : List TypeId)
    (hmark : ts.has_no_destroy T = false) (hctor : ts.ctor T 0 = true)
    (hcalls : 1 ≤ ops.count T) :
    Singleton.instance ts T (exit (run ts ops initial).2)
        = (.assertFail, exit (run ts ops initial).2) ∧
      outcomesOf T (run ts later (exit (run ts ops initial).2)).1
        = List.replicate (later.count T) .assertFail ∧
      (run ts later (exit (run ts ops initial).2)).2.ctorRuns T = 1 ∧
      (run ts later (exit (run ts ops initial).2)).2.live T = [] ∧
      (run ts later (exit (run ts ops initial).2)).2.value_ T = none := by
  have hreg := registered_cases ts T ops
  rw [if_pos ⟨hmark, hctor, hcalls⟩] at hreg
  have hmem : ExitFn.destroy T ∈ (run ts ops initial).2.handlers :=
    List.one_le_count_iff.mp (by omega)
  obtain ⟨a, h, _⟩ := run_initial_ok ts T ops hctor hcalls
  have hx := exit_view T (run ts ops initial).2
  rw [if_pos hmem, h] at hx
  have hp : (exit (run ts ops initial).2).ponce_ T = .spent := by
    simpa [view, destroyView] using congrArg View.ponce_ hx
  have hv : (exit (run ts ops initial).2).value_ T = none := by
    simpa [view, destroyView] using congrArg View.value_ hx
  obtain ⟨h1, h2⟩ := run_spent ts T later (exit (run ts ops initial).2) hp
  rw [hx] at h1
  refine ⟨?_, ?_, ?_, ?_, ?_⟩
  · rw [instance_spent ts T _ hp, hv]; rfl
  · rw [h2, hv]; rfl
  · simpa [view, destroyView] using congrArg View.ctorRuns h1
  · simpa [view, destroyView] using congrArg View.objects h1
  · simpa [view, destroyView] using congrArg View.value_ h1

theorem C7_witness :
    plainTypes.has_no_destroy 3 = false ∧ plainTypes.ctor 3 0 = true ∧
    1 ≤ [3, 5].count 3 ∧
    Singleton.instance plainTypes 3 (exit (run plainTypes [3, 5] initial).2)
        = (.assertFail, exit (run plainTypes [3, 5] initial).2) ∧
      outcomesOf 3 (run plainTypes [3, 7, 3] (exit (run plainTypes [3, 5] initial).2)).1
        = List.replicate ([3, 7, 3].count 3) .assertFail ∧
      (run plainTypes [3, 7, 3] (exit (run plainTypes [3, 5] initial).2)).2.ctorRuns 3 = 1 ∧
      (run plainTypes [3, 7, 3] (exit (run plainTypes [3, 5] initial).2)).2.live 3 = [] ∧
      (run plainTypes [3, 7, 3] (exit (run plainTypes [3, 5] initial).2)).2.value_ 3 = none :=
  ⟨by decide, by decide, by decide,
    C7_access_after_destroy plainTypes 3 [3, 5] [3, 7, 3] (by decide) (by decide) (by decide)⟩

/-- C8: if the constructor of `T` fails when `init` runs it, then in any run from
program start with `n ≥ 1` calls of `Singleton<T>::instance()` the first call ends
with the exception reaching its caller and each of the `n - 1` later calls ends in
the failure of `assert(value_ != NULL)`; the control is spent, `value_` is `NULL`,
no object of type `T` exists, and `new T()` has been evaluated once and no more,
also when a later evaluation would succeed. -/
theorem C8_failed_construction_not_retried (ts : Types) (T : TypeId) (ops : List TypeId)
    (hctor : ts.ctor T 0 = false) (hcalls : 1 ≤ ops.count T) :
    outcomesOf T (run ts ops initial).1
        = .thrown :: List.replicate (ops.count T - 1) .assertFail ∧
      (run ts ops initial).2.ponce_ T = .spent ∧
      (run ts ops initial).2.value_ T = none ∧
      (run ts ops initial).2.live T = [] ∧
      (run ts ops initial).2.ctorRuns T = 1 := by
  obtain ⟨h, ho⟩ := run_initial_fail ts T ops hctor hcalls
  refine ⟨ho, ?_, ?_, ?_, ?_⟩
  · simpa [view] using congrArg View.ponce_ h
  · simpa [view] using congrArg View.value_ h
  · simpa [view] using congrArg View.objects h
  · simpa [view] using congrArg View.ctorRuns h

theorem C8_witness :
    failingTypes.ctor 3 0 = false ∧ 1 ≤ [5, 3, 3, 3].count 3 ∧
    outcomesOf 3 (run failingTypes [5, 3, 3, 3] initial).1
        = .thrown :: List.replicate ([5, 3, 3, 3].count 3 - 1) .assertFail ∧
      (run failingTypes [5, 3, 3, 3] initial).2.ponce_ 3 = .spent ∧
      (run failingTypes [5, 3, 3, 3] initial).2.value_ 3 = none ∧
      (run failingTypes [5, 3, 3, 3] initial).2.live 3 = [] ∧
      (run failingTypes [5, 3, 3, 3] initial).2.ctorRuns 3 = 1 :=
  ⟨by decide, by decide,
    C8_failed_construction_not_retried failingTypes 3 [5, 3, 3, 3] (by decide) (by decide)⟩

/-- C9: for a type `T` on which `instance()` is never called, whatever is called on
other types, the state of `Singleton<T>` stays the initial one: the control is
`PTHREAD_ONCE_INIT`, `value_` is `NULL`, `destroy` is not among the exit handlers,
no `T` is constructed; and after process exit there have been zero constructions and
zero destructions of `T`, with `value_` still `NULL`. -/
theorem C9_never_accessed (ts : Types) (T : TypeId) (ops : List TypeId)
    (hcalls : ops.count T = 0) :
    view T (run ts ops initial).2 = view T initial ∧
      (run ts ops initial).2.ponce_ T = .PTHREAD_ONCE_INIT ∧
      (run ts ops initial).2.value_ T = none ∧
      ExitFn.destroy T ∉ (run ts ops initial).2.handlers ∧
      (run ts ops initial).2.ctorRuns T = 0 ∧
      view T (exit (run ts ops initial).2) = view T initial ∧
      (exit (run ts ops initial).2).ctorRuns T = 0 ∧
      (exit (run ts ops initial).2).dtorRuns T = 0 ∧
      (exit (run ts ops initial).2).value_ T = none := by
  have h := run_initial_untouched ts T ops hcalls
  have hnot : ExitFn.destroy T ∉ (run ts ops initial).2.handlers := by
    apply List.count_eq_zero.mp
    simpa [view] using congrArg View.registered h
  have hx := exit_view T (run ts ops initial).2
  rw [if_neg hnot, h] at hx
  refine ⟨h, ?_, ?_, hnot, ?_, hx, ?_, ?_, ?_⟩
  · simpa [view] using congrArg View.ponce_ h
  · simpa [view] using congrArg View.value_ h
  · simpa [view] using congrArg View.ctorRuns h
  · simpa [view] using congrArg View.ctorRuns hx
  · simpa [view] using congrArg View.dtorRuns hx
  · simpa [view] using congrArg View.value_ hx

theorem C9_witness :
    [5, 7, 5].count 3 = 0 ∧
    view 3 (run plainTypes [5, 7, 5] initial).2 = view 3 initial ∧
      (run plainTypes [5, 7, 5] initial).2.ponce_ 3 = .PTHREAD_ONCE_INIT ∧
      (run plainTypes [5, 7, 5] initial).2.value_ 3 = none ∧
      ExitFn.destroy 3 ∉ (run plainTypes [5, 7, 5] initial).2.handlers ∧
      (run plainTypes [5, 7, 5] initial).2.ctorRuns 3 = 0 ∧
      view 3 (exit (run plainTypes [5, 7, 5] initial).2) = view 3 initial ∧
      (exit (run plainTypes [5, 7, 5] initial).2).ctorRuns 3 = 0 ∧
      (exit (run plainTypes [5, 7, 5] initial).2).dtorRuns 3 = 0 ∧
      (exit (run plainTypes [5, 7, 5] initial).2).value_ 3 = none :=
  ⟨by decide, C9_never_accessed plainTypes 3 [5, 7, 5] (by decide)⟩

/-- What a failing `new T()` makes of `init`: the exception leaves it with only the
count of constructor runs changed. -/
theorem init_fail (ts : Types) (T : TypeId) (p : Process)
    (hp : ts.ctor T (p.ctorRuns T) = false) :
    Singleton.init ts T p
      = (.threw, { p with ctorRuns := upd p.ctorRuns T (p.ctorRuns T + 1) }) := by
  unfold Singleton.init new_T
  simp [hp]

/-- Process exit from a state in which `destroy` of `T` is not registered leaves the
destructor count, the live objects and `value_` of `T` as they were. -/
theorem exit_unregistered (T : TypeId) (q : Process)
    (hnot : ExitFn.destroy T ∉ q.handlers) :
    (exit q).dtorRuns T = q.dtorRuns T ∧ (exit q).live T = q.live T ∧
      (exit q).value_ T = q.value_ T := by
  have hx := exit_view T q
  rw [if_neg hnot] at hx
  refine ⟨?_, ?_, ?_⟩
  · simpa [view] using congrArg View.dtorRuns hx
  · simpa [view] using congrArg View.objects hx
  · simpa [view] using congrArg View.value_ hx

/-- C10: a failing `new T()` is atomic with respect to `value_` and the exit handlers,
for a type with or without the marker.
(1) In any state, `init` with a failing `new T()` ends by the exception and leaves
`value_`, the list of exit handlers and the live objects exactly as they were.
(2) Hence, from any state in which `value_` is `NULL` and `destroy` is not
registered, after the failed `init` the pointer is still `NULL`, `destroy` is still
not registered, and process exit invokes the destructor of `T` zero times and deletes
no object of type `T`.
(3) In a run from program start, when the first call of `Singleton<T>::instance()`
meets a failing constructor, that call ends by the exception with `value_` `NULL`
and the exit handlers as before, and process exit right after it runs no destructor
of `T`.
(4) When every construction of `T` fails, the same holds after any run from program
start, whatever was called and how often. -/
theorem C10_failed_construction_atomic (ts : Types) (T : TypeId) (ops : List TypeId) :
    (∀ p : Process, ts.ctor T (p.ctorRuns T) = false →
      (Singleton.init ts T p).1 = .threw ∧
      (Singleton.init ts T p).2.value_ = p.value_ ∧
      (Singleton.init ts T p).2.handlers = p.handlers ∧
      (Singleton.init ts T p).2.live = p.live) ∧
    (∀ p : Process, ts.ctor T (p.ctorRuns T) = false →
      p.value_ T = none → ExitFn.destroy T ∉ p.handlers →
      (Singleton.init ts T p).2.value_ T = none ∧
      ExitFn.destroy T ∉ (Singleton.init ts T p).2.handlers ∧
      (exit (Singleton.init ts T p).2).dtorRuns T = p.dtorRuns T ∧
      (exit (Singleton.init ts T p).2).live T = p.live T ∧
      (exit (Singleton.init ts T p).2).value_ T = none) ∧
    (ts.ctor T 0 = false → ops.count T = 0 →
      (Singleton.instance ts T (run ts ops initial).2).1 = .thrown ∧
      (Singleton.instance ts T (run ts ops initial).2).2.value_ T = none ∧
      (Singleton.instance ts T (run ts ops initial).2).2.handlers
        = (run ts ops initial).2.handlers ∧
      ExitFn.destroy T ∉ (Singleton.instance ts T (run ts ops initial).2).2.handlers ∧
      (Singleton.instance ts T (run ts ops initial).2).2.live T = [] ∧
      (exit (Singleton.instance ts T (run ts ops initial).2).2).dtorRuns T = 0 ∧
      (exit (Singleton.instance ts T (run ts ops initial).2).2).live T = []) ∧
    ((∀ k, ts.ctor T k = false) →
      (run ts ops initial).2.value_ T = none ∧
      ExitFn.destroy T ∉ (run ts ops initial).2.handlers ∧
      (run ts ops initial).2.live T = [] ∧
      (exit (run ts ops initial).2).dtorRuns T = 0 ∧
      (exit (run ts ops initial).2).live T = []) := by
  refine ⟨?_, ?_, ?_, ?_⟩
  · intro p hp
    rw [init_fail ts T p hp]
    exact ⟨rfl, rfl, rfl, rfl⟩
  · intro p hp hv hnot
    rw [init_fail ts T p hp]
    obtain ⟨h1, h2, h3⟩ := exit_unregistered T
      { p with ctorRuns := upd p.ctorRuns T (p.ctorRuns T + 1) } hnot
    exact ⟨hv, hnot, h1, h2, h3.trans hv⟩
  · intro hctor hcalls
    have h := run_initial_untouched ts T ops hcalls
    have hp : (run ts ops initial).2.ponce_ T = .PTHREAD_ONCE_INIT := by
      simpa [view] using congrArg View.ponce_ h
    have hk : (run ts ops initial).2.ctorRuns T = 0 := by
      simpa [view] using congrArg View.ctorRuns h
    have hv : (run ts ops initial).2.value_ T = none := by
      simpa [view] using congrArg View.value_ h
    have hl : (run ts ops initial).2.live T = [] := by
      simpa [view] using congrArg View.objects h
    have hd : (run ts ops initial).2.dtorRuns T = 0 := by
      simpa [view] using congrArg View.dtorRuns h
    have hnot : ExitFn.destroy T ∉ (run ts ops initial).2.handlers := by
      apply List.count_eq_zero.mp
      simpa [view] using congrArg View.registered h
    rw [instance_first_fail ts T _ hp (by rw [hk]; exact hctor)]
    obtain ⟨h1, h2, _⟩ := exit_unregistered T
      { (run ts ops initial).2 with
          ponce_ := upd (run ts ops initial).2.ponce_ T .spent
          ctorRuns := upd (run ts ops initial).2.ctorRuns T
            ((run ts ops initial).2.ctorRuns T + 1) } hnot
    exact ⟨rfl, hv, rfl, hnot, hl, h1.trans hd, h2.trans hl⟩
  · intro hall
    have hv : view T (run ts ops initial).2 = ⟨.spent, none, 0, [], 1, 0⟩ ∨
        view T (run ts ops initial).2 = ⟨.PTHREAD_ONCE_INIT, none, 0, [], 0, 0⟩ := by
      by_cases hm : 1 ≤ ops.count T
      · exact Or.inl (run_initial_fail ts T ops (hall 0) hm).1
      · exact Or.inr (run_initial_untouched ts T ops (by omega))
    have hnot : ExitFn.destroy T ∉ (run ts ops initial).2.handlers := by
      apply List.count_eq_zero.mp
      rcases hv with h | h <;> simpa [view] using congrArg View.registered h
    obtain ⟨h1, h2, _⟩ := exit_unregistered T (run ts ops initial).2 hnot
    have hval : (run ts ops initial).2.value_ T = none := by
      rcases hv with h | h <;> simpa [view] using congrArg View.value_ h
    have hl : (run ts ops initial).2.live T = [] := by
      rcases hv with h | h <;> simpa [view] using congrArg View.objects h
    have hd : (run ts ops initial).2.dtorRuns T = 0 := by
      rcases hv with h | h <;> simpa [view] using congrArg View.dtorRuns h
    exact ⟨hval, hnot, hl, h1.trans hd, h2.trans hl⟩

theorem C10_witness :
    (mixedTypes.ctor 3 ((run mixedTypes [5] initial).2.ctorRuns 3) = false ∧
      (run mixedTypes [5] initial).2.value_ 3 = none ∧
      ExitFn.destroy 3 ∉ (run mixedTypes [5] initial).2.handlers ∧
      mixedTypes.ctor 3 0 = false ∧ [5, 7].count 3 = 0) ∧
    ((Singleton.init mixedTypes 3 (run mixedTypes [5] initial).2).1 = .threw ∧
      (Singleton.init mixedTypes 3 (run mixedTypes [5] initial).2).2.value_
        = (run mixedTypes [5] initial).2.value_ ∧
      (Singleton.init mixedTypes 3 (run mixedTypes [5] initial).2).2.handlers
        = (run mixedTypes [5] initial).2.handlers ∧
      (Singleton.init mixedTypes 3 (run mixedTypes [5] initial).2).2.live
        = (run mixedTypes [5] initial).2.live) ∧
    ((Singleton.init mixedTypes 3 (run mixedTypes [5] initial).2).2.value_ 3 = none ∧
      ExitFn.destroy 3 ∉ (Singleton.init mixedTypes 3 (run mixedTypes [5] initial).2).2.handlers ∧
      (exit (Singleton.init mixedTypes 3 (run mixedTypes [5] initial).2).2).dtorRuns 3
        = (run mixedTypes [5] initial).2.dtorRuns 3 ∧
      (exit (Singleton.init mixedTypes 3 (run mixedTypes [5] initial).2).2).live 3
        = (run mixedTypes [5] initial).2.live 3 ∧
      (exit (Singleton.init mixedTypes 3 (run mixedTypes [5] initial).2).2).value_ 3 = none) ∧
    ((Singleton.instance mixedTypes 3 (run mixedTypes [5, 7] initial).2).1 = .thrown ∧
      (Singleton.instance mixedTypes 3 (run mixedTypes [5, 7] initial).2).2.value_ 3 = none ∧
      (Singleton.instance mixedTypes 3 (run mixedTypes [5, 7] initial).2).2.handlers
        = (run mixedTypes [5, 7] initial).2.handlers ∧
      ExitFn.destroy 3 ∉
        (Singleton.instance mixedTypes 3 (run mixedTypes [5, 7] initial).2).2.handlers ∧
      (Singleton.instance mixedTypes 3 (run mixedTypes [5, 7] initial).2).2.live 3 = [] ∧
      (exit (Singleton.instance mixedTypes 3 (run mixedTypes [5, 7] initial).2).2).dtorRuns 3
        = 0 ∧
      (exit (Singleton.instance mixedTypes 3 (run mixedTypes [5, 7] initial).2).2).live 3
        = []) ∧
    ((run mixedTypes [3, 5, 3] initial).2.value_ 3 = none ∧
      ExitFn.destroy 3 ∉ (run mixedTypes [3, 5, 3] initial).2.handlers ∧
      (run mixedTypes [3, 5, 3] initial).2.live 3 = [] ∧
      (exit (run mixedTypes [3, 5, 3] initial).2).dtorRuns 3 = 0 ∧
      (exit (run mixedTypes [3, 5, 3] initial).2).live 3 = []) :=
  ⟨⟨by decide, by decide, by decide, by decide, by decide⟩,
    (C10_failed_construction_atomic mixedTypes 3 []).1 (run mixedTypes [5] initial).2
      (by decide),
    (C10_failed_construction_atomic mixedTypes 3 []).2.1 (run mixedTypes [5] initial).2
      (by decide) (by decide) (by decide),
    (C10_failed_construction_atomic mixedTypes 3 [5, 7]).2.2.1 (by decide) (by decide),
    (C10_failed_construction_atomic mixedTypes 3 [3, 5, 3]).2.2.2 (fun _ => rfl)⟩

end muduo
